import Mathlib

/-!
Verification of the Dynamic Block Cipher Recommender (`tree.py`).

This file gives a shallow embedding in Lean 4 of the single-module Python
program `tree.py` and proves the specified properties of its components:

* `load_table`       — the CSV loader (§4.1 of the design),
* `normalize_value`  — the response normalizer (§4.2),
* `score_ciphers`    — the scorer (§4.4),
* the sort/take-2 reporter of `main` (§4.5).

Modelling conventions:

* Python dicts are modelled as insertion-ordered association lists
  (`List (String × _)`); `dlookup` models `d[k]` / the `in` test, `dictAdd`
  models `d[k] += v` on an existing key, and `dictSet` models `d[k] = v`
  (Python dict-comprehension semantics: overwrite in place, append new keys).
* A CSV input is `Option CSVFile`: `none` models a missing/unreadable file
  (where `open` raises), `some f` gives the header line and the data rows.
  `csv.DictReader` semantics are modelled by `zipPad`: each data row is
  zipped with the header, rows shorter than the header are padded with
  `none` (Python's `restval=None`), surplus cells are dropped, and blank
  rows (which `DictReader` skips) are filtered out.
* `recordGet` models `cipher[attr]` on records produced by the loader; on a
  key that is absent (where Python would raise `KeyError`) it defaults to
  `""`.  Theorems about the scorer therefore carry a well-formedness
  hypothesis stating that every key the code reads is present, so that they
  only speak about inputs on which the Python code is defined.
* `sortedDesc` models Python's `sorted(scores.items(), key=lambda x: x[1],
  reverse=True)`.  Python's sort is documented to be stable and
  `reverse=True` preserves stability, so it is *the* stable descending
  sort; we realise it as Mathlib's `insertionSort` with the reflexive
  total order "score ≥" and prove sortedness, permutation and stability,
  which pin the function down uniquely.
-/

/-- Model of `str.lower()` (ASCII case folding, which covers every value the
program compares). -/
def strLower (s : String) : String := ⟨s.data.map Char.toLower⟩

/-- Model of `str.strip()`: drop leading and trailing whitespace. -/
def strTrim (s : String) : String :=
  ⟨((s.data.dropWhile Char.isWhitespace).reverse.dropWhile Char.isWhitespace).reverse⟩

/-- A record as produced by `csv.DictReader` after the loader: an
insertion-ordered association list from column names to cell values. -/
abbrev Dict := List (String × String)

/-- A raw `DictReader` row: cells may be `none` when the data row was
shorter than the header (Python fills such cells with `None`). -/
abbrev Row := List (String × Option String)

/-- Association-list lookup, modelling Python's `d[k]` (and `k in d` via
`Option.isSome`).  The first binding wins, matching dict semantics where
keys are unique. -/
def dlookup {α : Type} : List (String × α) → String → Option α
  | [], _ => none
  | p :: ps, k => if p.1 = k then some p.2 else dlookup ps k

/-- Update `dictAdd m k d` models `m[k] += d` on a dict: every binding of `k`
(unique in the dicts the program builds) has `d` added to its value; the
key order is unchanged. -/
def dictAdd (m : List (String × Int)) (k : String) (d : Int) : List (String × Int) :=
  m.map (fun p => if p.1 = k then (p.1, p.2 + d) else p)

/-- Assignment `dictSet m k v` models `m[k] = v`: overwrite in place when the key is
present, append the new binding otherwise. -/
def dictSet (m : List (String × Int)) (k : String) (v : Int) : List (String × Int) :=
  if (dlookup m k).isSome then m.map (fun p => if p.1 = k then (p.1, v) else p)
  else m ++ [(k, v)]

/-- Lookup `cipher[attr]` on a loaded record.  Python raises `KeyError` when the
key is absent; the `""` default is never consulted under the
well-formedness hypotheses carried by the theorems below. -/
def recordGet (r : Dict) (k : String) : String := (dlookup r k).getD ""

/-! ## The CSV loader (`load_table`, tree.py lines 6–26) -/

/-- The input file: the header line and the raw data rows. -/
structure CSVFile where
  header : List String
  rows : List (List String)

/-- Model of `csv.DictReader` row construction: zip the header with a data row,
padding missing cells with `none` (Python's `restval=None`) and dropping
surplus cells (Python stores them under the `restkey` key `None`, which no
required column ever names). -/
def zipPad : List String → List String → Row
  | [], _ => []
  | h :: hs, [] => (h, none) :: zipPad hs []
  | h :: hs, v :: vs => (h, some v) :: zipPad hs vs

/-- tree.py lines 14–17: the required column names. -/
def requiredColumns : List String :=
  ["Cipher", "Speed", "Security Level", "Memory Usage",
   "Hardware Compatibility", "Energy Efficiency"]

/-- tree.py lines 6–26 (`load_table`).  `none` input models a missing file
(`open` raises, caught, `[]` returned).  Reading yields the `DictReader`
rows; `ciphers[0]` on an empty list raises `IndexError` (caught, `[]`);
a required column absent from the first row's keys (= the header) raises
`ValueError` (caught, `[]`); otherwise all parsed rows are returned. -/
def load_table : Option CSVFile → List Row
  | none => []
  | some f =>
    let ciphers := (f.rows.filter (fun r => !r.isEmpty)).map (zipPad f.header)
    match ciphers with
    | [] => []
    | first :: rest =>
      if requiredColumns.all (fun c => (first.map Prod.fst).contains c) then first :: rest
      else []

/-! ## The response normalizer (`normalize_value`, tree.py lines 29–59) -/

/-- tree.py lines 31–56: the fixed per-attribute answer → match-set table. -/
def mappings : List (String × List (String × List String)) :=
  [("Security Level",
     [("high", ["high", "very high"]), ("medium", ["medium"]), ("low", ["low"])]),
   ("Speed",
     [("high", ["high"]), ("medium", ["medium"]), ("low", ["low"])]),
   ("Memory Usage",
     [("high", ["high"]), ("medium", ["medium"]), ("low", ["low"])]),
   ("Hardware Compatibility",
     [("high", ["yes"]), ("low", ["no"])]),
   ("Energy Efficiency",
     [("high", ["high"]), ("medium", ["medium"]), ("low", ["low"])])]

/-- tree.py lines 29–59 (`normalize_value`): if the attribute has a table
and the lower-cased answer has an entry, return that entry, else fall back
to the singleton of the lower-cased answer. -/
def normalize_value (attr value : String) : List String :=
  match dlookup mappings attr with
  | some tbl =>
    match dlookup tbl (strLower value) with
    | some vs => vs
    | none => [strLower value]
  | none => [strLower value]

/-! ## The scorer (`score_ciphers`, tree.py lines 84–108) -/

/-- tree.py line 89. -/
def exact_match_score : Int := 3

/-- tree.py line 90. -/
def weak_match_score : Int := 1

/-- tree.py line 91. -/
def opposite_match_score : Int := -2

/-- tree.py line 86: `{cipher["Cipher"]: 0 for cipher in ciphers}` —
repeated `d[name] = 0` assignments over the dataset in order, so the key
order is the order of first occurrence of each cipher name. -/
def scoreInit (ciphers : List Dict) : List (String × Int) :=
  ciphers.foldl (fun m c => dictSet m (recordGet c "Cipher") 0) []

/-- tree.py lines 94–106: the body of the inner loop of `score_ciphers`
for one `(attribute, value)` answer pair and one cipher record: skip
`"unknown"`, otherwise run the exact/weak/opposite `elif` chain, updating
the running score dict. -/
def scoreOne (scores : List (String × Int)) (cipher : Dict) (attr value : String) :
    List (String × Int) :=
  if value = "unknown" then scores
  else
    let normalized_values := normalize_value attr value
    let cipher_value := strLower (strTrim (recordGet cipher attr))
    if cipher_value ∈ normalized_values then
      dictAdd scores (recordGet cipher "Cipher") exact_match_score
    else if strLower value = "high" ∧ cipher_value = "medium" then
      dictAdd scores (recordGet cipher "Cipher") weak_match_score
    else if strLower value = "low" ∧ cipher_value = "high" then
      dictAdd scores (recordGet cipher "Cipher") opposite_match_score
    else scores

/-- tree.py lines 84–108 (`score_ciphers`): initialize every cipher name
to 0, then fold the rule chain over every record and every answer pair
(both in insertion order). -/
def score_ciphers (ciphers : List Dict) (answers : Dict) : List (String × Int) :=
  ciphers.foldl
    (fun scores cipher =>
      answers.foldl (fun scores av => scoreOne scores cipher av.1 av.2) scores)
    (scoreInit ciphers)

/-- The contribution of a single `(attribute, value)` answer pair to one
record's score: the value added by the one rule of the `elif` chain in
tree.py lines 95–106 that fires (0 when none fires or the answer is
`"unknown"`). -/
def contribution (cipher : Dict) (attr value : String) : Int :=
  if value = "unknown" then 0
  else
    let normalized_values := normalize_value attr value
    let cipher_value := strLower (strTrim (recordGet cipher attr))
    if cipher_value ∈ normalized_values then exact_match_score
    else if strLower value = "high" ∧ cipher_value = "medium" then weak_match_score
    else if strLower value = "low" ∧ cipher_value = "high" then opposite_match_score
    else 0

/-- The total contribution of one record over the whole answer map. -/
def recordScore (answers : Dict) (cipher : Dict) : Int :=
  (answers.map (fun av => contribution cipher av.1 av.2)).sum

/-! ## The ranker/reporter (`main`, tree.py lines 149–156) -/

/-- The comparison `sorted(..., key=lambda x: x[1], reverse=True)` sorts
by: the first pair is placed before the second when its score is ≥. -/
def scoreGE (a b : String × Int) : Prop := b.2 ≤ a.2

instance : DecidableRel scoreGE := fun a b => inferInstanceAs (Decidable (b.2 ≤ a.2))

instance : IsTotal (String × Int) scoreGE := ⟨fun a b => le_total b.2 a.2⟩

instance : IsTrans (String × Int) scoreGE := ⟨fun _ _ _ h1 h2 => le_trans h2 h1⟩

/-- tree.py line 149: `sorted(scores.items(), key=lambda x: x[1],
reverse=True)` — the stable descending sort of the score list, realised as
insertion sort (stable sorts for a fixed total preorder are unique, and the
stability/sortedness/permutation theorems below pin it down). -/
def sortedDesc (m : List (String × Int)) : List (String × Int) :=
  List.insertionSort scoreGE m

/-- tree.py lines 152–155: the explanation printed for a cipher name — the
`Explanation` field of the *first* record whose `Cipher` equals the name,
defaulting to the placeholder. -/
def explanationFor (ciphers : List Dict) (name : String) : String :=
  match ciphers.find? (fun c => recordGet c "Cipher" == name) with
  | some c => (dlookup c "Explanation").getD "No explanation available"
  | none => "No explanation available"

/-- tree.py lines 149–156: the printed ranking — the first two entries of
the stably-descending-sorted score list, each with its explanation. -/
def report (ciphers : List Dict) (answers : Dict) : List (String × Int × String) :=
  ((sortedDesc (score_ciphers ciphers answers)).take 2).map
    (fun p => (p.1, p.2, explanationFor ciphers p.1))

/-- A `DictReader` row as the scorer sees it.  (On a padded `none` cell
Python would raise `AttributeError` inside `score_ciphers`; the theorems
below only exercise this conversion on complete rows, where it is exact.) -/
def rowToDict (r : Row) : Dict := r.map (fun p => (p.1, p.2.getD ""))

/-- tree.py lines 111–156 (`main`), with the interactive phase abstracted
into the already-collected `answers` dict: load, halt (`return`) on an
empty load, otherwise score, sort and report the top two. -/
def main_result (input : Option CSVFile) (answers : Dict) :
    Option (List (String × Int × String)) :=
  match (load_table input).map rowToDict with
  | [] => none
  | c :: cs => some (report (c :: cs) answers)

/-- The order of first occurrence of each name — the key order of a dict
built by iterated assignment over a list of names. -/
def firstOccurrences (names : List String) : List String :=
  names.foldl (fun acc k => if k ∈ acc then acc else acc ++ [k]) []

/-! ## Concrete data for the end-to-end scenario (§8 of the design) -/

/-- The AES row of the scenario dataset. -/
def aesRecord : Dict :=
  [("Cipher", "AES"), ("Security Level", "high"), ("Speed", "medium"),
   ("Memory Usage", "low"), ("Hardware Compatibility", "yes"),
   ("Energy Efficiency", "high")]

/-- The Blowfish row of the scenario dataset. -/
def blowfishRecord : Dict :=
  [("Cipher", "Blowfish"), ("Security Level", "low"), ("Speed", "low"),
   ("Memory Usage", "low"), ("Hardware Compatibility", "no"),
   ("Energy Efficiency", "low")]

/-- The scenario answers: Security Level = "High", all else "unknown",
in the order `main` asks its questions. -/
def scenarioAnswers : Dict :=
  [("Security Level", "High"), ("Speed", "unknown"), ("Memory Usage", "unknown"),
   ("Hardware Compatibility", "unknown"), ("Energy Efficiency", "unknown")]

/-- The scenario dataset as a CSV file. -/
def scenarioFile : CSVFile :=
  { header := ["Cipher", "Security Level", "Speed", "Memory Usage",
               "Hardware Compatibility", "Energy Efficiency"],
    rows := [["AES", "high", "medium", "low", "yes", "high"],
             ["Blowfish", "low", "low", "low", "no", "low"]] }

/-- The number of answered (non-`"unknown"`) attributes in an answer map. -/
def answeredCount (answers : Dict) : Nat :=
  (answers.filter (fun av => !(av.2 == "unknown"))).length

/-! ## Association-list (Python dict) lemmas -/

theorem dlookup_isSome_iff {α : Type} (m : List (String × α)) (k : String) :
    (dlookup m k).isSome ↔ k ∈ m.map Prod.fst := by
  induction m with
  | nil => simp [dlookup]
  | cons p ps ih =>
    by_cases h : p.1 = k
    · simp [dlookup, h]
    · simp only [dlookup, if_neg h, List.map_cons, List.mem_cons, ih]
      constructor
      · exact fun hm => Or.inr hm
      · rintro (rfl | hm)
        · exact absurd rfl h
        · exact hm

theorem dlookup_mem {α : Type} {m : List (String × α)} {k : String} {v : α}
    (h : dlookup m k = some v) : (k, v) ∈ m := by
  induction m with
  | nil => simp [dlookup] at h
  | cons p ps ih =>
    by_cases hp : p.1 = k
    · simp only [dlookup, if_pos hp] at h
      obtain ⟨p1, p2⟩ := p
      obtain rfl : p2 = v := by injection h
      obtain rfl : p1 = k := hp
      exact List.mem_cons_self _ _
    · simp only [dlookup, if_neg hp] at h
      exact List.mem_cons_of_mem _ (ih h)

theorem dlookup_dictAdd_self (m : List (String × Int)) (k : String) (d : Int) :
    dlookup (dictAdd m k d) k = (dlookup m k).map (· + d) := by
  induction m with
  | nil => simp [dictAdd, dlookup]
  | cons p ps ih =>
    by_cases h : p.1 = k
    · simp [dictAdd, dlookup, h]
    · simp [dictAdd, dlookup, h] at ih ⊢
      exact ih

theorem dlookup_dictAdd_ne (m : List (String × Int)) {k j : String} (d : Int)
    (h : j ≠ k) : dlookup (dictAdd m k d) j = dlookup m j := by
  induction m with
  | nil => simp [dictAdd, dlookup]
  | cons p ps ih =>
    have h2 : k ≠ j := fun hc => h hc.symm
    by_cases hp : p.1 = k
    · simp [dictAdd, dlookup, hp, h2] at ih ⊢
      exact ih
    · by_cases hj : p.1 = j
      · simp [dictAdd, dlookup, hp, hj, h]
      · simp [dictAdd, dlookup, hp, hj] at ih ⊢
        exact ih

theorem dictAdd_zero (m : List (String × Int)) (k : String) : dictAdd m k 0 = m := by
  have hf : (fun p : String × Int => if p.1 = k then (p.1, p.2 + 0) else p) = id := by
    funext p
    obtain ⟨p1, p2⟩ := p
    by_cases h : p1 = k <;> simp [h]
  simp [dictAdd, hf]

theorem dictAdd_dictAdd (m : List (String × Int)) (k : String) (a b : Int) :
    dictAdd (dictAdd m k a) k b = dictAdd m k (a + b) := by
  simp only [dictAdd, List.map_map]
  apply List.map_congr_left
  intro p _
  by_cases h : p.1 = k <;> simp [h, add_assoc]

theorem keys_dictAdd (m : List (String × Int)) (k : String) (d : Int) :
    (dictAdd m k d).map Prod.fst = m.map Prod.fst := by
  simp only [dictAdd, List.map_map]
  apply List.map_congr_left
  intro p _
  by_cases h : p.1 = k <;> simp [h]

theorem keys_dictSet (m : List (String × Int)) (k : String) (v : Int) :
    (dictSet m k v).map Prod.fst =
      if k ∈ m.map Prod.fst then m.map Prod.fst else m.map Prod.fst ++ [k] := by
  by_cases h : k ∈ m.map Prod.fst
  · have hs : (dlookup m k).isSome := (dlookup_isSome_iff m k).mpr h
    simp only [dictSet, if_pos hs, if_pos h, List.map_map]
    apply List.map_congr_left
    intro p _
    by_cases hp : p.1 = k <;> simp [hp]
  · have hs : ¬(dlookup m k).isSome := fun hc => h ((dlookup_isSome_iff m k).mp hc)
    simp [dictSet, hs, h]

/-! ## Score-map initialization lemmas -/

theorem mem_foldl_firstOcc (names : List String) :
    ∀ (acc : List String) (k : String),
      (k ∈ names.foldl (fun acc j => if j ∈ acc then acc else acc ++ [j]) acc) ↔
        (k ∈ acc ∨ k ∈ names) := by
  induction names with
  | nil => simp
  | cons n ns ih =>
    intro acc k
    simp only [List.foldl_cons, List.mem_cons]
    by_cases h : n ∈ acc
    · rw [if_pos h, ih]
      constructor
      · rintro (ha | hn)
        · exact Or.inl ha
        · exact Or.inr (Or.inr hn)
      · rintro (ha | rfl | hn)
        · exact Or.inl ha
        · exact Or.inl h
        · exact Or.inr hn
    · rw [if_neg h, ih]
      simp only [List.mem_append, List.mem_singleton]
      tauto

theorem nodup_foldl_firstOcc (names : List String) :
    ∀ acc : List String, acc.Nodup →
      (names.foldl (fun acc j => if j ∈ acc then acc else acc ++ [j]) acc).Nodup := by
  induction names with
  | nil => exact fun acc h => h
  | cons n ns ih =>
    intro acc hacc
    simp only [List.foldl_cons]
    by_cases h : n ∈ acc
    · exact ih _ (by rwa [if_pos h])
    · rw [if_neg h]
      refine ih _ (List.nodup_append.mpr ⟨hacc, List.nodup_singleton n, ?_⟩)
      intro a ha hb
      obtain rfl : a = n := List.mem_singleton.mp hb
      exact h ha

theorem nodup_firstOccurrences (names : List String) : (firstOccurrences names).Nodup :=
  nodup_foldl_firstOcc names [] List.nodup_nil

theorem mem_firstOccurrences (names : List String) (k : String) :
    k ∈ firstOccurrences names ↔ k ∈ names := by
  rw [firstOccurrences, mem_foldl_firstOcc]
  simp

theorem keys_foldl_dictSet (ciphers : List Dict) :
    ∀ m : List (String × Int),
      (ciphers.foldl (fun m c => dictSet m (recordGet c "Cipher") 0) m).map Prod.fst =
        (ciphers.map (fun c => recordGet c "Cipher")).foldl
          (fun acc j => if j ∈ acc then acc else acc ++ [j]) (m.map Prod.fst) := by
  induction ciphers with
  | nil => intro m; rfl
  | cons c cs ih =>
    intro m
    simp only [List.foldl_cons, List.map_cons, ih, keys_dictSet]

theorem keys_scoreInit (ciphers : List Dict) :
    (scoreInit ciphers).map Prod.fst =
      firstOccurrences (ciphers.map (fun c => recordGet c "Cipher")) := by
  rw [scoreInit, firstOccurrences, keys_foldl_dictSet]
  rfl

theorem values_foldl_dictSet (ciphers : List Dict) :
    ∀ m : List (String × Int), (∀ p ∈ m, p.2 = 0) →
      ∀ p ∈ ciphers.foldl (fun m c => dictSet m (recordGet c "Cipher") 0) m, p.2 = 0 := by
  induction ciphers with
  | nil => exact fun m hm => hm
  | cons c cs ih =>
    intro m hm
    simp only [List.foldl_cons]
    refine ih _ ?_
    intro p hp
    rw [dictSet] at hp
    by_cases hs : (dlookup m (recordGet c "Cipher")).isSome
    · rw [if_pos hs] at hp
      obtain ⟨q, hq, hqe⟩ := List.mem_map.mp hp
      by_cases hqk : q.1 = recordGet c "Cipher"
      · rw [if_pos hqk] at hqe
        rw [← hqe]
      · rw [if_neg hqk] at hqe
        rw [← hqe]
        exact hm q hq
    · rw [if_neg hs] at hp
      rcases List.mem_append.mp hp with hmem | hmem
      · exact hm p hmem
      · obtain rfl : p = (recordGet c "Cipher", 0) := List.mem_singleton.mp hmem
        rfl

theorem dlookup_scoreInit (ciphers : List Dict) (k : String)
    (hk : k ∈ ciphers.map (fun c => recordGet c "Cipher")) :
    dlookup (scoreInit ciphers) k = some 0 := by
  have hmem : k ∈ (scoreInit ciphers).map Prod.fst := by
    rw [keys_scoreInit, mem_firstOccurrences]
    exact hk
  have hs : (dlookup (scoreInit ciphers) k).isSome := (dlookup_isSome_iff _ k).mpr hmem
  obtain ⟨v, hv⟩ := Option.isSome_iff_exists.mp hs
  have hz : v = 0 :=
    values_foldl_dictSet ciphers [] (by simp) (k, v) (dlookup_mem hv)
  rw [hv, hz]

/-! ## Scorer lemmas -/

theorem scoreOne_eq_dictAdd (m : List (String × Int)) (cipher : Dict) (attr value : String) :
    scoreOne m cipher attr value = dictAdd m (recordGet cipher "Cipher") (contribution cipher attr value) := by
  rw [scoreOne, contribution]
  by_cases h0 : value = "unknown"
  · rw [if_pos h0, if_pos h0, dictAdd_zero]
  · rw [if_neg h0, if_neg h0]
    by_cases h1 : strLower (strTrim (recordGet cipher attr)) ∈ normalize_value attr value
    · rw [if_pos h1, if_pos h1]
    · rw [if_neg h1, if_neg h1]
      by_cases h2 : strLower value = "high" ∧ strLower (strTrim (recordGet cipher attr)) = "medium"
      · rw [if_pos h2, if_pos h2]
      · rw [if_neg h2, if_neg h2]
        by_cases h3 : strLower value = "low" ∧ strLower (strTrim (recordGet cipher attr)) = "high"
        · rw [if_pos h3, if_pos h3]
        · rw [if_neg h3, if_neg h3, dictAdd_zero]

theorem foldl_scoreOne (cipher : Dict) (answers : Dict) :
    ∀ m : List (String × Int),
      answers.foldl (fun scores av => scoreOne scores cipher av.1 av.2) m =
        dictAdd m (recordGet cipher "Cipher") (recordScore answers cipher) := by
  induction answers with
  | nil => intro m; simp [recordScore, dictAdd_zero]
  | cons av avs ih =>
    intro m
    rw [List.foldl_cons, scoreOne_eq_dictAdd, ih, dictAdd_dictAdd]
    simp [recordScore]

theorem score_ciphers_eq_fold (ciphers : List Dict) (answers : Dict) :
    score_ciphers ciphers answers =
      ciphers.foldl
        (fun m c => dictAdd m (recordGet c "Cipher") (recordScore answers c))
        (scoreInit ciphers) := by
  rw [score_ciphers]
  apply List.foldl_ext
  intro m c _
  exact foldl_scoreOne c answers m

theorem dlookup_foldl_dictAdd (f : Dict → Int) (k : String) (ciphers : List Dict) :
    ∀ m : List (String × Int),
      dlookup (ciphers.foldl (fun m c => dictAdd m (recordGet c "Cipher") (f c)) m) k =
        (dlookup m k).map
          (· + ((ciphers.filter (fun c => recordGet c "Cipher" == k)).map f).sum) := by
  induction ciphers with
  | nil =>
    intro m
    simp only [List.foldl_nil, List.filter_nil, List.map_nil, List.sum_nil]
    cases dlookup m k <;> simp
  | cons c cs ih =>
    intro m
    simp only [List.foldl_cons, ih, List.filter_cons]
    by_cases h : recordGet c "Cipher" = k
    · rw [h, dlookup_dictAdd_self]
      simp only [beq_self_eq_true, if_pos, List.map_cons, List.sum_cons, Option.map_map]
      cases dlookup m k <;> simp [add_assoc]
    · have hb : (recordGet c "Cipher" == k) = false := beq_eq_false_iff_ne.mpr h
      rw [dlookup_dictAdd_ne _ _ (fun hc => h hc.symm)]
      simp only [hb, Bool.false_eq_true, if_neg, not_false_iff]

theorem keys_score_ciphers (ciphers : List Dict) (answers : Dict) :
    (score_ciphers ciphers answers).map Prod.fst = (scoreInit ciphers).map Prod.fst := by
  rw [score_ciphers_eq_fold]
  generalize scoreInit ciphers = m
  induction ciphers generalizing m with
  | nil => rfl
  | cons c cs ih => simp only [List.foldl_cons, ih, keys_dictAdd]

theorem dlookup_score_ciphers (ciphers : List Dict) (answers : Dict) (k : String)
    (hk : k ∈ ciphers.map (fun c => recordGet c "Cipher")) :
    dlookup (score_ciphers ciphers answers) k =
      some (((ciphers.filter (fun c => recordGet c "Cipher" == k)).map
        (recordScore answers)).sum) := by
  rw [score_ciphers_eq_fold, dlookup_foldl_dictAdd, dlookup_scoreInit ciphers k hk]
  simp

theorem filter_name_eq_singleton {ciphers : List Dict} {c : Dict}
    (hnd : (ciphers.map (fun x => recordGet x "Cipher")).Nodup) (hc : c ∈ ciphers) :
    ciphers.filter (fun x => recordGet x "Cipher" == recordGet c "Cipher") = [c] := by
  induction ciphers with
  | nil => simp at hc
  | cons d ds ih =>
    simp only [List.map_cons, List.nodup_cons] at hnd
    obtain ⟨hdn, hnd'⟩ := hnd
    rcases List.mem_cons.mp hc with rfl | hc'
    · simp only [List.filter_cons, beq_self_eq_true, if_pos]
      have hnil : ds.filter (fun x => recordGet x "Cipher" == recordGet c "Cipher") = [] := by
        apply List.filter_eq_nil_iff.mpr
        intro x hx hbeq
        exact hdn (List.mem_map.mpr ⟨x, hx, (eq_of_beq hbeq).symm ▸ rfl⟩)
      rw [hnil]
    · have hne : recordGet d "Cipher" ≠ recordGet c "Cipher" := by
        intro he
        exact hdn (he ▸ List.mem_map.mpr ⟨c, hc', rfl⟩)
      simp only [List.filter_cons, beq_eq_false_iff_ne.mpr hne, Bool.false_eq_true, if_neg,
        not_false_iff]
      exact ih hnd' hc'

theorem dlookup_score_ciphers_nodup (ciphers : List Dict) (answers : Dict) (c : Dict)
    (hnd : (ciphers.map (fun x => recordGet x "Cipher")).Nodup) (hc : c ∈ ciphers) :
    dlookup (score_ciphers ciphers answers) (recordGet c "Cipher") =
      some (recordScore answers c) := by
  rw [dlookup_score_ciphers ciphers answers _ (List.mem_map.mpr ⟨c, hc, rfl⟩),
    filter_name_eq_singleton hnd hc]
  simp

/-! ## Per-rule contribution lemmas -/

theorem contribution_unknown (c : Dict) (a : String) : contribution c a "unknown" = 0 := by
  rw [contribution, if_pos rfl]

theorem contribution_bounds (c : Dict) (a v : String) :
    -2 ≤ contribution c a v ∧ contribution c a v ≤ 3 := by
  rw [contribution]
  dsimp only
  split_ifs <;> norm_num [exact_match_score, weak_match_score, opposite_match_score]

theorem recordScore_bounds (answers : Dict) (c : Dict) :
    -2 * (answeredCount answers : Int) ≤ recordScore answers c ∧
      recordScore answers c ≤ 3 * (answeredCount answers : Int) := by
  induction answers with
  | nil => simp [recordScore, answeredCount]
  | cons av avs ih =>
    have hrs : recordScore (av :: avs) c = contribution c av.1 av.2 + recordScore avs c := by
      simp [recordScore]
    by_cases hv : av.2 = "unknown"
    · have hc0 : contribution c av.1 av.2 = 0 := by rw [hv]; exact contribution_unknown c av.1
      have hb : (av.2 == "unknown") = true := beq_iff_eq.mpr hv
      have hcount : answeredCount (av :: avs) = answeredCount avs := by
        simp [answeredCount, List.filter_cons, hb]
      rw [hrs, hc0, hcount, zero_add]
      exact ih
    · have hb : (av.2 == "unknown") = false := beq_eq_false_iff_ne.mpr hv
      have hcount : answeredCount (av :: avs) = answeredCount avs + 1 := by
        simp [answeredCount, List.filter_cons, hb]
      obtain ⟨hl, hr⟩ := contribution_bounds c av.1 av.2
      obtain ⟨ihl, ihr⟩ := ih
      rw [hrs, hcount]
      push_cast
      constructor <;> linarith

theorem recordScore_all_unknown (answers : Dict) (c : Dict)
    (h : ∀ av ∈ answers, av.2 = "unknown") : recordScore answers c = 0 := by
  induction answers with
  | nil => simp [recordScore]
  | cons av avs ih =>
    have hrs : recordScore (av :: avs) c = contribution c av.1 av.2 + recordScore avs c := by
      simp [recordScore]
    have hc0 : contribution c av.1 av.2 = 0 := by
      rw [h av (List.mem_cons_self av avs)]
      exact contribution_unknown c av.1
    rw [hrs, hc0, ih fun x hx => h x (List.mem_cons_of_mem av hx), add_zero]

/-! ## Sorting lemmas (stability of the descending sort) -/

theorem filter_orderedInsert (x : String × Int) (l : List (String × Int)) (s : Int) :
    (List.orderedInsert scoreGE x l).filter (fun p => decide (p.2 = s)) =
      ((x :: l).filter (fun p => decide (p.2 = s))) := by
  induction l with
  | nil => rfl
  | cons y ys ih =>
    rw [List.orderedInsert]
    by_cases h : scoreGE x y
    · rw [if_pos h]
    · rw [if_neg h]
      by_cases hx : x.2 = s <;> by_cases hy : y.2 = s
      · exact absurd (le_of_eq (hy.trans hx.symm)) h
      · simp only [List.filter_cons, hx, hy, decide_True, decide_False, if_true, if_false,
          ih, Bool.false_eq_true]
      · simp only [List.filter_cons, hx, hy, decide_True, decide_False, if_true, if_false,
          ih, Bool.false_eq_true]
      · simp only [List.filter_cons, hx, hy, decide_False, if_false, ih, Bool.false_eq_true]

theorem filter_insertionSortGE (m : List (String × Int)) (s : Int) :
    (List.insertionSort scoreGE m).filter (fun p => decide (p.2 = s)) =
      m.filter (fun p => decide (p.2 = s)) := by
  induction m with
  | nil => rfl
  | cons x xs ih =>
    rw [List.insertionSort, filter_orderedInsert]
    simp only [List.filter_cons, ih]

theorem filter_sortedDesc (m : List (String × Int)) (s : Int) :
    (sortedDesc m).filter (fun p => decide (p.2 = s)) = m.filter (fun p => decide (p.2 = s)) := by
  rw [sortedDesc]
  exact filter_insertionSortGE m s

theorem find?_eq_head?_filter {α : Type} (p : α → Bool) (l : List α) :
    l.find? p = (l.filter p).head? := by
  induction l with
  | nil => rfl
  | cons x xs ih =>
    cases h : p x
    · rw [List.find?_cons_of_neg _ (by simp [h]), List.filter_cons, h,
        if_neg Bool.false_ne_true]
      exact ih
    · rw [List.find?_cons_of_pos _ (by simp [h]), List.filter_cons, h, if_pos rfl]
      rfl

/-! ## Loader lemmas -/

theorem keys_zipPad (h : List String) : ∀ r : List String, (zipPad h r).map Prod.fst = h := by
  induction h with
  | nil => intro r; rfl
  | cons hh hs ih => intro r; cases r <;> simp [zipPad, ih]

theorem count_eq_one_str {l : List String} {k : String} (hnd : l.Nodup) (hk : k ∈ l) :
    l.count k = 1 := by
  induction l with
  | nil => simp at hk
  | cons x xs ih =>
    rw [List.nodup_cons] at hnd
    rcases List.mem_cons.mp hk with rfl | hmem
    · rw [List.count_cons_self, List.count_eq_zero.mpr hnd.1]
    · have hxk : k ≠ x := fun he => hnd.1 (he ▸ hmem)
      rw [List.count_cons_of_ne hxk]
      exact ih hnd.2 hmem

theorem load_table_some (f : CSVFile) :
    load_table (some f) =
      match (f.rows.filter (fun r => !r.isEmpty)).map (zipPad f.header) with
      | [] => []
      | first :: rest =>
        if requiredColumns.all (fun c => (first.map Prod.fst).contains c) then first :: rest
        else [] := rfl

theorem load_table_all_or_empty (f : CSVFile) :
    load_table (some f) = [] ∨
      load_table (some f) = (f.rows.filter (fun r => !r.isEmpty)).map (zipPad f.header) := by
  rw [load_table_some]
  cases hm : (f.rows.filter (fun r => !r.isEmpty)).map (zipPad f.header) with
  | nil => exact Or.inl rfl
  | cons first rest =>
    dsimp only
    by_cases hall : requiredColumns.all (fun c => (first.map Prod.fst).contains c)
    · right
      rw [if_pos hall]
    · left
      rw [if_neg hall]

theorem load_table_empty_rows (f : CSVFile)
    (h : f.rows.filter (fun r => !r.isEmpty) = []) : load_table (some f) = [] := by
  rw [load_table_some, h]
  rfl

theorem first_row_keys {f : CSVFile} {first : Row} {rest : List Row}
    (hm : (f.rows.filter (fun r => !r.isEmpty)).map (zipPad f.header) = first :: rest) :
    first.map Prod.fst = f.header := by
  have hmem : first ∈ (f.rows.filter (fun r => !r.isEmpty)).map (zipPad f.header) := by
    rw [hm]
    exact List.mem_cons_self _ _
  obtain ⟨r, _, hre⟩ := List.mem_map.mp hmem
  rw [← hre, keys_zipPad]

theorem load_table_missing_col {f : CSVFile} {c : String}
    (hc : c ∈ requiredColumns) (hnot : c ∉ f.header) : load_table (some f) = [] := by
  rw [load_table_some]
  cases hm : (f.rows.filter (fun r => !r.isEmpty)).map (zipPad f.header) with
  | nil => rfl
  | cons first rest =>
    dsimp only
    have hall : (requiredColumns.all fun d => (first.map Prod.fst).contains d) = false := by
      rw [List.all_eq_false]
      refine ⟨c, hc, ?_⟩
      rw [first_row_keys hm]
      intro hcon
      exact hnot (List.mem_of_elem_eq_true hcon)
    rw [hall, if_neg Bool.false_ne_true]

theorem load_table_success (f : CSVFile)
    (hne : f.rows.filter (fun r => !r.isEmpty) ≠ [])
    (hcols : ∀ c ∈ requiredColumns, c ∈ f.header) :
    load_table (some f) = (f.rows.filter (fun r => !r.isEmpty)).map (zipPad f.header) := by
  rw [load_table_some]
  cases hm : (f.rows.filter (fun r => !r.isEmpty)).map (zipPad f.header) with
  | nil => exact absurd (List.map_eq_nil_iff.mp hm) hne
  | cons first rest =>
    dsimp only
    have hall : (requiredColumns.all fun d => (first.map Prod.fst).contains d) = true := by
      rw [List.all_eq_true]
      intro d hd
      rw [first_row_keys hm]
      exact List.elem_eq_true_of_mem (hcols d hd)
    rw [hall, if_pos rfl]

theorem main_result_eq (input : Option CSVFile) (answers : Dict) :
    main_result input answers =
      match (load_table input).map rowToDict with
      | [] => none
      | c :: cs => some (report (c :: cs) answers) := rfl

/-! ## The claims -/

/-- C2: for every attribute with an entry in the fixed mapping table and
every answer (compared lower-cased) with an entry for that attribute, the
normalizer returns exactly the table's match set; in particular
`normalize_value "Security Level" "high" = {"high","very high"}`,
`normalize_value "Hardware Compatibility" "High" = {"yes"}` and
`normalize_value "Hardware Compatibility" "low" = {"no"}`. -/
theorem normalize_mapped_table_C2 :
    (∀ (attr value : String) (tbl : List (String × List String)) (vs : List String),
      dlookup mappings attr = some tbl →
      dlookup tbl (strLower value) = some vs →
      normalize_value attr value = vs) ∧
    normalize_value "Security Level" "high" = ["high", "very high"] ∧
    normalize_value "Hardware Compatibility" "High" = ["yes"] ∧
    normalize_value "Hardware Compatibility" "low" = ["no"] := by
  refine ⟨?_, rfl, rfl, rfl⟩
  intro attr value tbl vs h1 h2
  rw [normalize_value, h1]
  dsimp only
  rw [h2]

/-- Witness for C2: the general mapped-table clause applied to the
`Speed` attribute and the (capitalised) answer `"Medium"`. -/
theorem normalize_mapped_table_C2_witness :
    normalize_value "Speed" "Medium" = ["medium"] :=
  normalize_mapped_table_C2.1 "Speed" "Medium"
    [("high", ["high"]), ("medium", ["medium"]), ("low", ["low"])] ["medium"] rfl rfl

/-- C3: when either the attribute has no entry in the mapping table or the
lower-cased answer has no entry under that attribute, the normalizer
returns the singleton of the lower-cased raw answer. -/
theorem normalize_fallback_C3 :
    ∀ attr value : String,
      (dlookup mappings attr = none ∨
        ∃ tbl, dlookup mappings attr = some tbl ∧ dlookup tbl (strLower value) = none) →
      normalize_value attr value = [strLower value] := by
  intro attr value h
  rcases h with h | ⟨tbl, h1, h2⟩
  · rw [normalize_value, h]
  · rw [normalize_value, h1]
    dsimp only
    rw [h2]

/-- Witness for C3: `"Key Size"` has no mapping table, so the answer
`"High"` normalizes to the singleton `["high"]`. -/
theorem normalize_fallback_C3_witness :
    normalize_value "Key Size" "High" = ["high"] :=
  normalize_fallback_C3 "Key Size" "High" (Or.inl rfl)

/-- C4: the reporter's sort is descending on scores, is a permutation of
the score list, and is stable (entries with any fixed score appear in the
same order as in the score list, whose key order is the dataset's
first-occurrence order); the report prints exactly the first two entries;
and on scores A↦5, B↦5, C↦3 (A before B) the top 2 is [A, B]. -/
theorem ranking_stable_desc_C4 :
    (∀ m : List (String × Int), (sortedDesc m).Pairwise scoreGE) ∧
    (∀ m : List (String × Int), List.Perm (sortedDesc m) m) ∧
    (∀ (m : List (String × Int)) (s : Int),
      (sortedDesc m).filter (fun p => decide (p.2 = s)) =
        m.filter (fun p => decide (p.2 = s))) ∧
    (∀ (ciphers : List Dict) (answers : Dict),
      (score_ciphers ciphers answers).map Prod.fst =
        firstOccurrences (ciphers.map (fun c => recordGet c "Cipher"))) ∧
    (∀ (ciphers : List Dict) (answers : Dict),
      report ciphers answers =
        ((sortedDesc (score_ciphers ciphers answers)).take 2).map
          (fun p => (p.1, p.2, explanationFor ciphers p.1))) ∧
    (sortedDesc [("A", 5), ("B", 5), ("C", 3)]).take 2 = [("A", 5), ("B", 5)] := by
  refine ⟨fun m => List.sorted_insertionSort scoreGE m,
    fun m => List.perm_insertionSort scoreGE m, filter_sortedDesc, ?_,
    fun _ _ => rfl, rfl⟩
  intro ciphers answers
  rw [keys_score_ciphers, keys_scoreInit]

/-- C1: per (attribute, answer) pair with answer ≠ "unknown" exactly one
rule of the priority chain fires (+3 exact, +1 weak on high/medium,
−2 opposite on low/high, else 0), "unknown" contributes nothing, and with
pairwise-distinct cipher names each candidate's total score is the sum of
its per-attribute contributions. -/
theorem scoring_rules_C1 :
    (∀ (cipher : Dict) (attr : String), contribution cipher attr "unknown" = 0) ∧
    (∀ (cipher : Dict) (attr value : String), value ≠ "unknown" →
      (strLower (strTrim (recordGet cipher attr)) ∈ normalize_value attr value →
        contribution cipher attr value = 3) ∧
      (strLower (strTrim (recordGet cipher attr)) ∉ normalize_value attr value →
        strLower value = "high" → strLower (strTrim (recordGet cipher attr)) = "medium" →
        contribution cipher attr value = 1) ∧
      (strLower (strTrim (recordGet cipher attr)) ∉ normalize_value attr value →
        ¬(strLower value = "high" ∧ strLower (strTrim (recordGet cipher attr)) = "medium") →
        strLower value = "low" → strLower (strTrim (recordGet cipher attr)) = "high" →
        contribution cipher attr value = -2) ∧
      (strLower (strTrim (recordGet cipher attr)) ∉ normalize_value attr value →
        ¬(strLower value = "high" ∧ strLower (strTrim (recordGet cipher attr)) = "medium") →
        ¬(strLower value = "low" ∧ strLower (strTrim (recordGet cipher attr)) = "high") →
        contribution cipher attr value = 0)) ∧
    (∀ (ciphers : List Dict) (answers : Dict) (cipher : Dict),
      (∀ c ∈ ciphers,
        (dlookup c "Cipher").isSome ∧ ∀ av ∈ answers, (dlookup c av.1).isSome) →
      (ciphers.map (fun c => recordGet c "Cipher")).Nodup →
      cipher ∈ ciphers →
      dlookup (score_ciphers ciphers answers) (recordGet cipher "Cipher") =
        some ((answers.map (fun av => contribution cipher av.1 av.2)).sum)) := by
  refine ⟨contribution_unknown, ?_, ?_⟩
  · intro cipher attr value hv
    refine ⟨?_, ?_, ?_, ?_⟩
    · intro h1
      rw [contribution]
      dsimp only
      rw [if_neg hv, if_pos h1]
      rfl
    · intro h1 h2 h3
      rw [contribution]
      dsimp only
      rw [if_neg hv, if_neg h1, if_pos ⟨h2, h3⟩]
      rfl
    · intro h1 hw h2 h3
      rw [contribution]
      dsimp only
      rw [if_neg hv, if_neg h1, if_neg hw, if_pos ⟨h2, h3⟩]
      rfl
    · intro h1 hw ho
      rw [contribution]
      dsimp only
      rw [if_neg hv, if_neg h1, if_neg hw, if_neg ho]
  · intro ciphers answers cipher _ hnd hc
    exact dlookup_score_ciphers_nodup ciphers answers cipher hnd hc

/-- Witness for C1: the total-score clause on the scenario dataset —
AES's score under the scenario answers is the sum of its contributions,
namely 3. -/
theorem scoring_rules_C1_witness :
    dlookup (score_ciphers [aesRecord, blowfishRecord] scenarioAnswers) "AES" = some 3 :=
  scoring_rules_C1.2.2 [aesRecord, blowfishRecord] scenarioAnswers aesRecord
    (by decide) (by decide) (by decide)

/-- C8: the score map is initialized with 0 for every candidate name
before any rule fires, scoring preserves the key set, and afterwards every
dataset candidate has a defined score. -/
theorem score_map_total_C8 :
    ∀ (ciphers : List Dict) (answers : Dict) (cipher : Dict), cipher ∈ ciphers →
      dlookup (scoreInit ciphers) (recordGet cipher "Cipher") = some 0 ∧
      (score_ciphers ciphers answers).map Prod.fst = (scoreInit ciphers).map Prod.fst ∧
      ∃ s : Int, dlookup (score_ciphers ciphers answers) (recordGet cipher "Cipher") = some s := by
  intro ciphers answers cipher hc
  have hk : recordGet cipher "Cipher" ∈ ciphers.map (fun c => recordGet c "Cipher") :=
    List.mem_map.mpr ⟨cipher, hc, rfl⟩
  exact ⟨dlookup_scoreInit ciphers _ hk, keys_score_ciphers ciphers answers,
    ⟨_, dlookup_score_ciphers ciphers answers _ hk⟩⟩

/-- Witness for C8: Blowfish appears in the scenario score map, showing
initialization, key preservation and a defined final score. -/
theorem score_map_total_C8_witness :
    dlookup (scoreInit [aesRecord, blowfishRecord]) "Blowfish" = some 0 ∧
    (score_ciphers [aesRecord, blowfishRecord] scenarioAnswers).map Prod.fst =
      (scoreInit [aesRecord, blowfishRecord]).map Prod.fst ∧
    ∃ s : Int,
      dlookup (score_ciphers [aesRecord, blowfishRecord] scenarioAnswers) "Blowfish" =
        some s :=
  score_map_total_C8 [aesRecord, blowfishRecord] scenarioAnswers blowfishRecord (by decide)

/-- C9: when several records share a `Cipher` name, the score map has a
single entry for that name holding the sum of the contributions of all
records bearing it, and the printed explanation comes from the first
matching record. -/
theorem duplicate_names_C9 :
    ∀ (ciphers : List Dict) (answers : Dict) (k : String),
      2 ≤ (ciphers.filter (fun c => recordGet c "Cipher" == k)).length →
      ((score_ciphers ciphers answers).map Prod.fst).count k = 1 ∧
      dlookup (score_ciphers ciphers answers) k =
        some (((ciphers.filter (fun c => recordGet c "Cipher" == k)).map
          (recordScore answers)).sum) ∧
      explanationFor ciphers k =
        ((ciphers.filter (fun c => recordGet c "Cipher" == k)).head?.map
          (fun c => (dlookup c "Explanation").getD "No explanation available")).getD
          "No explanation available" := by
  intro ciphers answers k hk2
  have hne : ciphers.filter (fun c => recordGet c "Cipher" == k) ≠ [] := by
    intro h
    rw [h] at hk2
    simp at hk2
  obtain ⟨c, hcf⟩ := List.exists_mem_of_ne_nil _ hne
  have hcmem : c ∈ ciphers := (List.mem_filter.mp hcf).1
  have hck : recordGet c "Cipher" = k := eq_of_beq (List.mem_filter.mp hcf).2
  have hk : k ∈ ciphers.map (fun x => recordGet x "Cipher") :=
    List.mem_map.mpr ⟨c, hcmem, hck⟩
  refine ⟨?_, dlookup_score_ciphers ciphers answers k hk, ?_⟩
  · rw [keys_score_ciphers, keys_scoreInit]
    exact count_eq_one_str (nodup_firstOccurrences _) ((mem_firstOccurrences _ k).mpr hk)
  · unfold explanationFor
    rw [find?_eq_head?_filter]
    cases hh : (ciphers.filter (fun x => recordGet x "Cipher" == k)).head? with
    | none => rfl
    | some c0 => rfl

/-- Witness for C9: two records named AES (scores 3 and 1 on the single
answered attribute) — one entry, total 4, explanation from the first. -/
theorem duplicate_names_C9_witness :
    ((score_ciphers
        [[("Cipher", "AES"), ("Speed", "high"), ("Explanation", "fast")],
         [("Cipher", "AES"), ("Speed", "medium")]]
        [("Speed", "High")]).map Prod.fst).count "AES" = 1 ∧
    dlookup
      (score_ciphers
        [[("Cipher", "AES"), ("Speed", "high"), ("Explanation", "fast")],
         [("Cipher", "AES"), ("Speed", "medium")]]
        [("Speed", "High")]) "AES" = some 4 ∧
    explanationFor
      [[("Cipher", "AES"), ("Speed", "high"), ("Explanation", "fast")],
       [("Cipher", "AES"), ("Speed", "medium")]] "AES" = "fast" := by
  have h := duplicate_names_C9
    [[("Cipher", "AES"), ("Speed", "high"), ("Explanation", "fast")],
     [("Cipher", "AES"), ("Speed", "medium")]]
    [("Speed", "High")] "AES" (by decide)
  exact ⟨h.1, h.2.1, h.2.2⟩

/-- C10: over a dataset with distinct cipher names, a final score `s` with
`k` answered (non-"unknown") attributes satisfies `-2k ≤ s ≤ 3k`; with the
program's five questions `-10 ≤ s ≤ 15`; and an all-"unknown" answer map
gives every candidate score 0. -/
theorem score_bounds_C10 :
    ∀ (ciphers : List Dict) (answers : Dict) (cipher : Dict) (s : Int),
      (∀ c ∈ ciphers,
        (dlookup c "Cipher").isSome ∧ ∀ av ∈ answers, (dlookup c av.1).isSome) →
      (ciphers.map (fun c => recordGet c "Cipher")).Nodup →
      cipher ∈ ciphers →
      dlookup (score_ciphers ciphers answers) (recordGet cipher "Cipher") = some s →
      (-2 * (answeredCount answers : Int) ≤ s ∧ s ≤ 3 * (answeredCount answers : Int)) ∧
      (answers.length = 5 → -10 ≤ s ∧ s ≤ 15) ∧
      ((∀ av ∈ answers, av.2 = "unknown") → s = 0) := by
  intro ciphers answers cipher s _ hnd hc hs
  have h2 := dlookup_score_ciphers_nodup ciphers answers cipher hnd hc
  rw [hs] at h2
  have heq : recordScore answers cipher = s := (Option.some_inj.mp h2).symm
  obtain ⟨hl, hr⟩ := recordScore_bounds answers cipher
  rw [heq] at hl hr
  refine ⟨⟨hl, hr⟩, ?_, ?_⟩
  · intro h5
    have hle : answeredCount answers ≤ 5 := by
      rw [← h5]
      exact List.length_filter_le _ _
    have hle2 : (answeredCount answers : Int) ≤ 5 := by exact_mod_cast hle
    have hge : (0 : Int) ≤ (answeredCount answers : Int) := by positivity
    constructor <;> linarith
  · intro hall
    have h0 := recordScore_all_unknown answers cipher hall
    rw [heq] at h0
    exact h0

/-- Witness for C10: AES in the scenario (one answered attribute, score 3)
satisfies all three bound clauses. -/
theorem score_bounds_C10_witness :
    (-2 * (answeredCount scenarioAnswers : Int) ≤ 3 ∧
      3 ≤ 3 * (answeredCount scenarioAnswers : Int)) ∧
    (scenarioAnswers.length = 5 → -10 ≤ (3 : Int) ∧ (3 : Int) ≤ 15) ∧
    ((∀ av ∈ scenarioAnswers, av.2 = "unknown") → (3 : Int) = 0) :=
  score_bounds_C10 [aesRecord, blowfishRecord] scenarioAnswers aesRecord 3
    (by decide) (by decide) (by decide) rfl

/-- C5 (counterexample): a data row that does not supply a value for every
required column is *not* a load failure — on header = the six required
columns and the single malformed row `["AES"]` the loader returns that row
padded with null cells, not the empty list. -/
theorem loader_malformed_row_counterexample_C5 :
    load_table (some ⟨requiredColumns, [["AES"]]⟩) =
      [[("Cipher", some "AES"), ("Speed", none), ("Security Level", none),
        ("Memory Usage", none), ("Hardware Compatibility", none),
        ("Energy Efficiency", none)]] ∧
    load_table (some ⟨requiredColumns, [["AES"]]⟩) ≠ [] := by
  constructor
  · rfl
  · decide

/-- C5 (amended): the loader totally returns either all parsed rows or the
empty list; it returns the empty list on a missing file, on an input with
no data rows and on a missing required column; a data row shorter than the
header is not a failure — when the required columns are present and at
least one data row exists, all rows (short ones padded with null cells)
are returned. -/
theorem loader_all_or_empty_C5 :
    load_table none = [] ∧
    (∀ f : CSVFile, load_table (some f) = [] ∨
      load_table (some f) = (f.rows.filter (fun r => !r.isEmpty)).map (zipPad f.header)) ∧
    (∀ f : CSVFile, f.rows.filter (fun r => !r.isEmpty) = [] → load_table (some f) = []) ∧
    (∀ (f : CSVFile) (c : String), c ∈ requiredColumns → c ∉ f.header →
      load_table (some f) = []) ∧
    (∀ f : CSVFile, f.rows.filter (fun r => !r.isEmpty) ≠ [] →
      (∀ c ∈ requiredColumns, c ∈ f.header) →
      load_table (some f) =
        (f.rows.filter (fun r => !r.isEmpty)).map (zipPad f.header)) :=
  ⟨rfl, load_table_all_or_empty, load_table_empty_rows,
    fun _ _ hc hn => load_table_missing_col hc hn, load_table_success⟩

/-- Witness for C5: a file whose header lacks the required column
`"Cipher"` loads as the empty list. -/
theorem loader_all_or_empty_C5_witness :
    load_table (some ⟨["Speed"], [["fast"]]⟩) = [] :=
  loader_all_or_empty_C5.2.2.2.1 ⟨["Speed"], [["fast"]]⟩ "Cipher" (by decide) (by decide)

/-- C6: whenever the required column `"Cipher"` is absent from the header,
the loader returns the empty collection and `main` halts without scoring
or reporting. -/
theorem missing_cipher_column_halts_C6 :
    ∀ (f : CSVFile) (answers : Dict), "Cipher" ∉ f.header →
      load_table (some f) = [] ∧ main_result (some f) answers = none := by
  intro f answers hnc
  have hload : load_table (some f) = [] := load_table_missing_col (by decide) hnc
  refine ⟨hload, ?_⟩
  rw [main_result_eq, hload]
  rfl

/-- Witness for C6: a file with header `["Notes"]` (no `"Cipher"`) loads
empty and makes the workflow halt. -/
theorem missing_cipher_column_halts_C6_witness :
    load_table (some ⟨["Notes"], [["x"]]⟩) = [] ∧
    main_result (some ⟨["Notes"], [["x"]]⟩) [] = none :=
  missing_cipher_column_halts_C6 ⟨["Notes"], [["x"]]⟩ [] (by decide)

/-- C7: the end-to-end scenario — AES/Blowfish dataset, Security Level
answered "High", everything else "unknown" — scores AES = 3 and
Blowfish = 0, and the top-2 report lists AES first (score 3) then
Blowfish (score 0). -/
theorem end_to_end_scenario_C7 :
    score_ciphers [aesRecord, blowfishRecord] scenarioAnswers =
      [("AES", 3), ("Blowfish", 0)] ∧
    main_result (some scenarioFile) scenarioAnswers =
      some [("AES", 3, "No explanation available"),
        ("Blowfish", 0, "No explanation available")] :=
  ⟨rfl, rfl⟩
